import Mathlib

/-!
A verification development for the wire-log formatting engine of the
`jacobsa/fuse` sample (`samples/wirelog` and the `fuse`-package wire-log
code: `NewWireLogRecord`, `WireLogRecord`, `ignoredParams`,
`formatWireLogEntry`).

The Go code is shallowly embedded:

* A Go operation value (`*fuseops.LookUpInodeOp`, `*fuseops.ReadFileOp`, ...)
  is seen by `formatWireLogEntry` through two views that Go provides from a
  single value: the reflective view (`reflect.ValueOf(op).Elem()`, a type
  name plus an ordered list of named, kinded fields) and the typed view
  (the `switch typed := op.(type)` at the end).  `GoOp` records both views.
* Field values are `GoValue`: either plain JSON-representable data
  (modelled directly as a `Json` tree) or a value of the distinguished
  struct type `fuseops.OpContext` (which the code detects by a type
  assertion).
* A Go `error` is `Option GoError`; `GoError` models the `errors.As`
  unwrap chain with respect to the target type `syscall.Errno`.
* Wall-clock time is `Int` (nanoseconds); `time.Since(t)` at clock
  reading `now` is `now - t`.
* `json.MarshalIndent` is modelled at the JSON-tree level: the serialized
  "textual unit" is a `Json` value, and the decoder of the test harness
  (`json.Decoder.Decode` into a `fuse.WireLogRecord`) is `decodeRecord`.
  On this model, marshalling of the record never fails (every `GoValue`
  renders to a tree), matching the fact that the formatted fields are
  plain data.
-/

/-- A JSON document: the shape of one serialized wire-log unit, and also the
model of a JSON-representable Go field value. -/
inductive Json where
  | null : Json
  | bool (b : Bool) : Json
  | num (n : Int) : Json
  | str (s : String) : Json
  | arr (elems : List Json) : Json
  | obj (fields : List (String × Json)) : Json

/-- Model of `fuseops.OpContext` (the shared per-request context block):
`FuseID uint64` and `Pid uint32`. -/
structure OpContext where
  FuseID : Int
  Pid : Int
deriving DecidableEq

/-- A Go field value as seen through `reflect.Value.Interface()`: either a
plain JSON-representable data value, or a value of the struct type
`fuseops.OpContext` (the one type `formatWireLogEntry` detects by a type
assertion). -/
inductive GoValue where
  | json (j : Json) : GoValue
  | opCtx (c : OpContext) : GoValue

/-- Whether a `GoValue` is plain JSON-representable data. -/
def GoValue.isData : GoValue → Bool
  | .json _ => true
  | .opCtx _ => false

/-- The reflective kind of a field, as tested by `formatWireLogEntry`:
a pointer (with its nil-ness), a function, or anything else. -/
inductive GoKind where
  | ptr (isNil : Bool) : GoKind
  | func : GoKind
  | other : GoKind
deriving DecidableEq

/-- One named struct field of an operation value, as enumerated by
`v.Field(i)` / `t.Field(i).Name`. -/
structure GoField where
  name : String
  kind : GoKind
  value : GoValue

/-- Whether the operation value is (as a typed Go value) a
`*fuseops.ReadFileOp`, a `*fuseops.WriteFileOp`, or anything else; this is
what the `switch typed := op.(type)` at the end of `formatWireLogEntry`
inspects.  For a read op we carry its `BytesRead int` result field; for a
write op the length of its `Data []byte` payload. -/
inductive OpSpecific where
  | readFileOp (bytesRead : Int) : OpSpecific
  | writeFileOp (dataLen : Nat) : OpSpecific
  | otherOp : OpSpecific

/-- An operation value as `formatWireLogEntry` consumes it: the declared
type name `t.Name()`, the ordered field list of the reflective view, and
the typed view used by the augmentation switch. -/
structure GoOp where
  typeName : String
  fields : List GoField
  specific : OpSpecific

/-- A Go `error` value, modelled with respect to what `errors.As(err, &errno)`
with `errno syscall.Errno` can observe: the value is itself an `Errno`, or it
wraps another error (one `Unwrap` step), or it is a plain error with no code
and nothing wrapped. -/
inductive GoError where
  | errnoErr (code : Int) : GoError
  | wrapped (msg : String) (inner : GoError) : GoError
  | plain (msg : String) : GoError

/-- `errors.As(e, &errno)` for `errno syscall.Errno`: succeeds with the code
if `e` is itself an `Errno`, otherwise walks the unwrap chain. -/
def GoError.asErrno : GoError → Option Int
  | .errnoErr code => some code
  | .wrapped _ inner => inner.asErrno
  | .plain _ => none

/-- The `fuse.WireLogRecord` struct.  `Args` and `Extra` are Go maps
`map[string]any`, modelled as association lists with map-update semantics. -/
structure WireLogRecord where
  Operation : String
  StartTime : Int
  Duration : Int
  Status : Int
  Context : Option OpContext
  Args : List (String × GoValue)
  Extra : List (String × GoValue)

/-- `fuse.NewWireLogRecord()`: `StartTime` is the current clock reading,
`Args` and `Extra` are fresh empty maps, every other field is its Go zero
value. -/
def NewWireLogRecord (now : Int) : WireLogRecord :=
  { Operation := ""
    StartTime := now
    Duration := 0
    Status := 0
    Context := none
    Args := []
    Extra := [] }

/-- `var ignoredParams = []string{"OpContext", "Dst", "Data"}` -/
def ignoredParams : List String := ["OpContext", "Dst", "Data"]

/-- Go map lookup `m[k]` on the association-list model. -/
def alookup {α : Type} (k : String) : List (String × α) → Option α
  | [] => none
  | (k', v) :: rest => if k = k' then some v else alookup k rest

/-- Go map assignment `m[k] = v` on the association-list model: replace the
binding of `k` if present, else append a new one. -/
def argsInsert {α : Type} (m : List (String × α)) (k : String) (v : α) :
    List (String × α) :=
  match m with
  | [] => [(k, v)]
  | (k', v') :: rest =>
    if k = k' then (k, v) :: rest else (k', v') :: argsInsert rest k v

/-- `f.Kind() == reflect.Ptr && f.IsNil()` -/
def isNilPtr : GoKind → Bool
  | .ptr isNil => isNil
  | _ => false

/-- `f.Kind() == reflect.Func` -/
def isFunc : GoKind → Bool
  | .func => true
  | _ => false

/-- The field loop of `formatWireLogEntry`: for each field in order, skip
nil pointers, skip functions, skip names in `ignoredParams`
(`slices.Contains(ignoredParams, fieldName)`), otherwise
`args[fieldName] = f.Interface()`. -/
def extractArgs (fields : List GoField) (args : List (String × GoValue)) :
    List (String × GoValue) :=
  match fields with
  | [] => args
  | f :: rest =>
    if isNilPtr f.kind then extractArgs rest args
    else if isFunc f.kind then extractArgs rest args
    else if f.name ∈ ignoredParams then extractArgs rest args
    else extractArgs rest (argsInsert args f.name f.value)

/-- The `switch typed := op.(type)` after the field loop:
`args["BytesRead"] = typed.BytesRead` for a `*fuseops.ReadFileOp`,
`args["Size"] = len(typed.Data)` for a `*fuseops.WriteFileOp`, nothing
otherwise. -/
def applyAugment (specific : OpSpecific) (args : List (String × GoValue)) :
    List (String × GoValue) :=
  match specific with
  | .readFileOp bytesRead => argsInsert args "BytesRead" (.json (.num bytesRead))
  | .writeFileOp dataLen => argsInsert args "Size" (.json (.num (dataLen : Int)))
  | .otherOp => args

/-- `if f := v.FieldByName("OpContext"); f.IsValid() { if ctx, ok :=
f.Interface().(fuseops.OpContext); ok { wlog.Context = &ctx } }` — the
record's `Context` is overwritten only when a field named `"OpContext"`
exists and its value is of type `fuseops.OpContext`. -/
def extractContext (op : GoOp) (cur : Option OpContext) : Option OpContext :=
  match op.fields.find? (fun f => f.name = "OpContext") with
  | some f =>
    match f.value with
    | .opCtx c => some c
    | _ => cur
  | none => cur

/-- The status assignment of `formatWireLogEntry`: `wlog.Status = 0` when
`opErr == nil`, `wlog.Status = int(errno)` when `errors.As(opErr, &errno)`,
and no assignment at all otherwise. -/
def resolveStatus (opErr : Option GoError) (cur : Int) : Int :=
  match opErr with
  | none => 0
  | some e =>
    match e.asErrno with
    | some code => code
    | none => cur

/-- `encodeGoValue` renders a field value as `encoding/json` does: plain data
is itself, an `OpContext` value is an object of its fields. -/
def encodeOpContext (c : OpContext) : Json :=
  .obj [("FuseID", .num c.FuseID), ("Pid", .num c.Pid)]

def encodeGoValue : GoValue → Json
  | .json j => j
  | .opCtx c => encodeOpContext c

def encodeContextOpt : Option OpContext → Json
  | none => .null
  | some c => encodeOpContext c

def encodeArgsMap (m : List (String × GoValue)) : List (String × Json) :=
  m.map (fun p => (p.1, encodeGoValue p.2))

/-- `json.MarshalIndent(wlog, "", "  ")` at the JSON-tree level: every
exported field of `fuse.WireLogRecord` under its name.  (`StartTime` is a
`time.Time`, rendered by `encoding/json` as an RFC3339 string; here the
clock reading is encoded as a number, an injective rendering of the same
instant.) -/
def encodeRecord (r : WireLogRecord) : Json :=
  .obj [("Operation", .str r.Operation),
        ("StartTime", .num r.StartTime),
        ("Duration", .num r.Duration),
        ("Status", .num r.Status),
        ("Context", encodeContextOpt r.Context),
        ("Args", .obj (encodeArgsMap r.Args)),
        ("Extra", .obj (encodeArgsMap r.Extra))]

/-- `func formatWireLogEntry(op any, opErr error, wlog *WireLogRecord)
([]byte, error)`.  The clock reading at formatting time is the extra
argument `now` (`time.Since(wlog.StartTime)` = `now - wlog.StartTime`).
The function mutates `wlog` — here it returns the updated record — and
returns the serialized bytes, here the JSON tree of the updated record;
on this model serialization cannot fail, so no error component is
returned. -/
def formatWireLogEntry (op : GoOp) (opErr : Option GoError)
    (wlog : WireLogRecord) (now : Int) : WireLogRecord × Json :=
  let r : WireLogRecord :=
    { wlog with
      Operation := op.typeName
      Duration := now - wlog.StartTime
      Status := resolveStatus opErr wlog.Status
      Context := extractContext op wlog.Context
      Args := applyAugment op.specific (extractArgs op.fields []) }
  (r, encodeRecord r)

/-- The record as mutated by `formatWireLogEntry`. -/
def formatRecord (op : GoOp) (opErr : Option GoError)
    (wlog : WireLogRecord) (now : Int) : WireLogRecord :=
  (formatWireLogEntry op opErr wlog now).1

/-- The serialized unit returned by `formatWireLogEntry`. -/
def formatOutput (op : GoOp) (opErr : Option GoError)
    (wlog : WireLogRecord) (now : Int) : Json :=
  (formatWireLogEntry op opErr wlog now).2

/-- The harness side: `json.Decoder.Decode(&entry)` into a
`fuse.WireLogRecord`.  A JSON object is read back field by field; `Context`
(a `*fuseops.OpContext`) reads `null` as absent, `Args`/`Extra`
(`map[string]any`) read any object, every value coming back as plain data. -/
def decodeContext : Json → Option (Option OpContext)
  | .null => some none
  | .obj fs =>
    match alookup "FuseID" fs, alookup "Pid" fs with
    | some (.num fid), some (.num pid) => some (some ⟨fid, pid⟩)
    | _, _ => none
  | _ => none

def decodeArgsMap : Json → Option (List (String × GoValue))
  | .obj fs => some (fs.map (fun p => (p.1, GoValue.json p.2)))
  | _ => none

def decodeRecord (j : Json) : Option WireLogRecord :=
  match j with
  | .obj fs =>
    match alookup "Operation" fs, alookup "StartTime" fs, alookup "Duration" fs,
          alookup "Status" fs, alookup "Context" fs, alookup "Args" fs,
          alookup "Extra" fs with
    | some (.str opName), some (.num st), some (.num dur), some (.num stat),
      some ctxJ, some argsJ, some extraJ =>
      match decodeContext ctxJ, decodeArgsMap argsJ, decodeArgsMap extraJ with
      | some ctx, some args, some extra =>
        some { Operation := opName, StartTime := st, Duration := dur,
               Status := stat, Context := ctx, Args := args, Extra := extra }
      | _, _, _ => none
    | _, _, _, _, _, _, _ => none
  | _ => none

/-- A field is skipped by the field loop of `formatWireLogEntry` iff it is a
nil pointer, a function, or its name is in `ignoredParams`. -/
def FieldSkipped (f : GoField) : Prop :=
  isNilPtr f.kind = true ∨ isFunc f.kind = true ∨ f.name ∈ ignoredParams

instance (f : GoField) : Decidable (FieldSkipped f) := by
  unfold FieldSkipped; infer_instance

/-- Static well-formedness that every real Go operation value has: struct
field names are unique, a `*fuseops.ReadFileOp` really has the declared
`BytesRead int` field carrying the same value the typed view reads, and a
`*fuseops.WriteFileOp` has no field named `Size`. -/
def GoOp.wellFormed (op : GoOp) : Prop :=
  (op.fields.map GoField.name).Nodup ∧
  (∀ bytesRead : Int, op.specific = .readFileOp bytesRead →
    ∃ f ∈ op.fields, f.name = "BytesRead" ∧ f.kind = .other ∧
      f.value = .json (.num bytesRead)) ∧
  (∀ dataLen : Nat, op.specific = .writeFileOp dataLen →
    ∀ f ∈ op.fields, f.name ≠ "Size")

/-! ### Association-list (Go map) lemmas -/

theorem alookup_argsInsert_self {α : Type} (m : List (String × α)) (k : String)
    (v : α) : alookup k (argsInsert m k v) = some v := by
  induction m with
  | nil => simp [argsInsert, alookup]
  | cons p rest ih =>
    obtain ⟨k', v'⟩ := p
    by_cases h : k = k'
    · simp [argsInsert, h, alookup]
    · simp [argsInsert, h, alookup, ih]

theorem alookup_argsInsert_ne {α : Type} (m : List (String × α))
    (k k' : String) (v : α) (h : k' ≠ k) :
    alookup k' (argsInsert m k v) = alookup k' m := by
  induction m with
  | nil => simp [argsInsert, alookup, h]
  | cons p rest ih =>
    obtain ⟨k₀, v₀⟩ := p
    by_cases hk : k = k₀
    · subst hk
      simp [argsInsert, alookup, h]
    · simp only [argsInsert, if_neg hk]
      by_cases hk' : k' = k₀
      · simp [alookup, hk']
      · simp [alookup, hk', ih]

theorem alookup_argsInsert_cases {α : Type} (m : List (String × α))
    (k k' : String) (v w : α)
    (h : alookup k' (argsInsert m k v) = some w) :
    (k' = k ∧ w = v) ∨ (k' ≠ k ∧ alookup k' m = some w) := by
  by_cases hk : k' = k
  · subst hk
    rw [alookup_argsInsert_self] at h
    exact Or.inl ⟨rfl, (Option.some.injEq _ _).mp h.symm⟩
  · rw [alookup_argsInsert_ne m k k' v hk] at h
    exact Or.inr ⟨hk, h⟩

/-! ### Field-loop lemmas -/

theorem extractArgs_cons_skip (f : GoField) (rest : List GoField)
    (acc : List (String × GoValue)) (h : FieldSkipped f) :
    extractArgs (f :: rest) acc = extractArgs rest acc := by
  rcases h with h | h | h
  · simp [extractArgs, h]
  · simp [extractArgs, h]
  · simp [extractArgs, h]

theorem extractArgs_cons_keep (f : GoField) (rest : List GoField)
    (acc : List (String × GoValue)) (h : ¬ FieldSkipped f) :
    extractArgs (f :: rest) acc =
      extractArgs rest (argsInsert acc f.name f.value) := by
  have h1 : ¬ isNilPtr f.kind = true := fun hh => h (Or.inl hh)
  have h2 : ¬ isFunc f.kind = true := fun hh => h (Or.inr (Or.inl hh))
  have h3 : f.name ∉ ignoredParams := fun hh => h (Or.inr (Or.inr hh))
  simp [extractArgs, h1, h2, h3]

theorem extractArgs_lookup_of_not_named (fields : List GoField)
    (acc : List (String × GoValue)) (k : String)
    (h : ∀ f ∈ fields, f.name ≠ k) :
    alookup k (extractArgs fields acc) = alookup k acc := by
  induction fields generalizing acc with
  | nil => rfl
  | cons f rest ih =>
    have hf : f.name ≠ k := h f (List.mem_cons_self f rest)
    have hr : ∀ g ∈ rest, g.name ≠ k := fun g hg => h g (List.mem_cons_of_mem f hg)
    by_cases hs : FieldSkipped f
    · rw [extractArgs_cons_skip f rest acc hs, ih _ hr]
    · rw [extractArgs_cons_keep f rest acc hs, ih _ hr,
        alookup_argsInsert_ne _ _ _ _ (fun he => hf he.symm)]

theorem extractArgs_lookup_of_mem (fields : List GoField)
    (acc : List (String × GoValue)) (f : GoField) (hmem : f ∈ fields)
    (hnodup : (fields.map GoField.name).Nodup) :
    alookup f.name (extractArgs fields acc) =
      if FieldSkipped f then alookup f.name acc else some f.value := by
  induction fields generalizing acc with
  | nil => cases hmem
  | cons g rest ih =>
    have hnodup' : (rest.map GoField.name).Nodup := (List.nodup_cons.mp hnodup).2
    have hgrest : g.name ∉ rest.map GoField.name := (List.nodup_cons.mp hnodup).1
    rcases List.mem_cons.mp hmem with hfg | hfr
    · subst hfg
      have hnot : ∀ h ∈ rest, h.name ≠ f.name := by
        intro h hh he
        exact hgrest (he ▸ List.mem_map_of_mem GoField.name hh)
      by_cases hs : FieldSkipped f
      · rw [extractArgs_cons_skip f rest acc hs,
          extractArgs_lookup_of_not_named rest acc f.name hnot, if_pos hs]
      · rw [extractArgs_cons_keep f rest acc hs,
          extractArgs_lookup_of_not_named rest _ f.name hnot,
          alookup_argsInsert_self, if_neg hs]
    · have hne : g.name ≠ f.name := by
        intro he
        exact hgrest (he ▸ List.mem_map_of_mem GoField.name hfr)
      by_cases hs : FieldSkipped g
      · rw [extractArgs_cons_skip g rest acc hs]
        exact ih _ hfr hnodup'
      · rw [extractArgs_cons_keep g rest acc hs, ih _ hfr hnodup']
        by_cases hfs : FieldSkipped f
        · rw [if_pos hfs, if_pos hfs,
            alookup_argsInsert_ne _ _ _ _ (fun he => hne he.symm)]
        · rw [if_neg hfs, if_neg hfs]

theorem extractArgs_lookup_some (fields : List GoField)
    (acc : List (String × GoValue)) (k : String) (v : GoValue)
    (h : alookup k (extractArgs fields acc) = some v) :
    (∃ f ∈ fields, f.name = k ∧ ¬ FieldSkipped f ∧ v = f.value) ∨
      alookup k acc = some v := by
  induction fields generalizing acc with
  | nil => exact Or.inr h
  | cons f rest ih =>
    by_cases hs : FieldSkipped f
    · rw [extractArgs_cons_skip f rest acc hs] at h
      rcases ih _ h with ⟨g, hg, hrest⟩ | hacc
      · exact Or.inl ⟨g, List.mem_cons_of_mem f hg, hrest⟩
      · exact Or.inr hacc
    · rw [extractArgs_cons_keep f rest acc hs] at h
      rcases ih _ h with ⟨g, hg, hrest⟩ | hacc
      · exact Or.inl ⟨g, List.mem_cons_of_mem f hg, hrest⟩
      · rcases alookup_argsInsert_cases _ _ _ _ _ hacc with ⟨hk, hv⟩ | ⟨_, hm⟩
        · exact Or.inl ⟨f, List.mem_cons_self f rest, hk.symm, hs, hv⟩
        · exact Or.inr hm

/-! ### Data-only argument maps and the decode/encode relation -/

theorem argsInsert_forall {α : Type} (P : α → Prop) (m : List (String × α))
    (k : String) (v : α) (hm : ∀ p ∈ m, P p.2) (hv : P v) :
    ∀ p ∈ argsInsert m k v, P p.2 := by
  induction m with
  | nil =>
    intro p hp
    simp only [argsInsert, List.mem_singleton] at hp
    exact hp ▸ hv
  | cons q rest ih =>
    obtain ⟨k₀, v₀⟩ := q
    intro p hp
    by_cases hk : k = k₀
    · simp only [argsInsert, if_pos hk] at hp
      rcases List.mem_cons.mp hp with h | h
      · exact h ▸ hv
      · exact hm p (List.mem_cons_of_mem _ h)
    · simp only [argsInsert, if_neg hk] at hp
      rcases List.mem_cons.mp hp with h | h
      · exact hm p (h ▸ List.mem_cons_self _ _)
      · exact ih (fun q hq => hm q (List.mem_cons_of_mem _ hq)) p h

theorem extractArgs_forall (P : GoValue → Prop) (fields : List GoField)
    (acc : List (String × GoValue)) (hacc : ∀ p ∈ acc, P p.2)
    (hf : ∀ f ∈ fields, P f.value) :
    ∀ p ∈ extractArgs fields acc, P p.2 := by
  induction fields generalizing acc with
  | nil => exact hacc
  | cons f rest ih =>
    have hf' : ∀ g ∈ rest, P g.value := fun g hg => hf g (List.mem_cons_of_mem f hg)
    by_cases hs : FieldSkipped f
    · rw [extractArgs_cons_skip f rest acc hs]
      exact ih _ hacc hf'
    · rw [extractArgs_cons_keep f rest acc hs]
      exact ih _
        (argsInsert_forall P acc f.name f.value hacc (hf f (List.mem_cons_self f rest)))
        hf'

theorem applyAugment_forall (P : GoValue → Prop) (specific : OpSpecific)
    (args : List (String × GoValue)) (hargs : ∀ p ∈ args, P p.2)
    (hnum : ∀ n : Int, P (.json (.num n))) :
    ∀ p ∈ applyAugment specific args, P p.2 := by
  cases specific with
  | readFileOp bytesRead =>
    exact argsInsert_forall P args _ _ hargs (hnum bytesRead)
  | writeFileOp dataLen =>
    exact argsInsert_forall P args _ _ hargs (hnum (dataLen : Int))
  | otherOp => exact hargs

theorem decodeArgs_encodeArgs_of_data (l : List (String × GoValue))
    (h : ∀ p ∈ l, (p.2).isData = true) :
    (encodeArgsMap l).map (fun p => (p.1, GoValue.json p.2)) = l := by
  induction l with
  | nil => rfl
  | cons p rest ih =>
    obtain ⟨k, v⟩ := p
    have hv : v.isData = true := h (k, v) (List.mem_cons_self _ _)
    cases v with
    | json j =>
      have ihr := ih (fun q hq => h q (List.mem_cons_of_mem _ hq))
      simp only [encodeArgsMap, List.map_cons] at ihr ⊢
      rw [ihr]
      rfl
    | opCtx c => simp [GoValue.isData] at hv

theorem decodeRecord_encodeRecord (r : WireLogRecord) :
    decodeRecord (encodeRecord r) =
      some { Operation := r.Operation, StartTime := r.StartTime,
             Duration := r.Duration, Status := r.Status,
             Context := r.Context,
             Args := (encodeArgsMap r.Args).map (fun p => (p.1, GoValue.json p.2)),
             Extra := (encodeArgsMap r.Extra).map (fun p => (p.1, GoValue.json p.2)) } := by
  obtain ⟨opName, st, dur, stat, ctx, args, extra⟩ := r
  cases ctx with
  | none => rfl
  | some c => rfl

/-! ### Name uniqueness and context extraction -/

theorem name_unique_of_nodup {fields : List GoField}
    (h : (fields.map GoField.name).Nodup) {f g : GoField}
    (hf : f ∈ fields) (hg : g ∈ fields) (hn : f.name = g.name) : f = g :=
  List.inj_on_of_nodup_map h hf hg hn

theorem extractContext_of_mem (op : GoOp) (cur : Option OpContext)
    (hnodup : (op.fields.map GoField.name).Nodup) (f : GoField)
    (hf : f ∈ op.fields) (hname : f.name = "OpContext") (c : OpContext)
    (hval : f.value = .opCtx c) : extractContext op cur = some c := by
  have hsome : (op.fields.find? (fun g => g.name = "OpContext")).isSome := by
    rw [List.find?_isSome]
    exact ⟨f, hf, by simp [hname]⟩
  obtain ⟨g, hg⟩ := Option.isSome_iff_exists.mp hsome
  have hgmem : g ∈ op.fields := List.mem_of_find?_eq_some hg
  have hgname : g.name = "OpContext" := by
    have := List.find?_some hg
    simpa using this
  have hfg : f = g := name_unique_of_nodup hnodup hf hgmem (hname.trans hgname.symm)
  subst hfg
  simp only [extractContext, hg, hval]

theorem extractContext_of_absent (op : GoOp) (cur : Option OpContext)
    (h : ∀ f ∈ op.fields, f.name = "OpContext" → ∀ c, f.value ≠ .opCtx c) :
    extractContext op cur = cur := by
  cases hfind : op.fields.find? (fun g => g.name = "OpContext") with
  | none => simp only [extractContext, hfind]
  | some g =>
    have hgmem : g ∈ op.fields := List.mem_of_find?_eq_some hfind
    have hgname : g.name = "OpContext" := by
      have := List.find?_some hfind
      simpa using this
    cases hval : g.value with
    | json j => simp only [extractContext, hfind, hval]
    | opCtx c => exact absurd hval (h g hgmem hgname c)

/-! ### Concrete sample operation values (mirroring the test workload) -/

def sampleCtx : OpContext := ⟨42, 7⟩

def sampleOptField : GoField := ⟨"Opt", .ptr true, .json .null⟩

/-- A lookup-style op: a context block, plain data fields, an ignored buffer
field, a callback field and an unset pointer field. -/
def sampleLookupOp : GoOp :=
  ⟨"LookUpInodeOp",
   [⟨"OpContext", .other, .opCtx sampleCtx⟩,
    ⟨"Parent", .other, .json (.num 1)⟩,
    ⟨"Name", .other, .json (.str "foo")⟩,
    ⟨"Entry", .other, .json (.obj [("Child", .num 2)])⟩,
    ⟨"Dst", .other, .json .null⟩,
    ⟨"Callback", .func, .json .null⟩,
    sampleOptField],
   .otherOp⟩

/-- A read op: `BytesRead` is both a declared `int` field and the value the
typed view reports. -/
def sampleReadOp : GoOp :=
  ⟨"ReadFileOp",
   [⟨"OpContext", .other, .opCtx sampleCtx⟩,
    ⟨"Inode", .other, .json (.num 2)⟩,
    ⟨"Offset", .other, .json (.num 0)⟩,
    ⟨"Size", .other, .json (.num 4096)⟩,
    ⟨"Dst", .other, .json .null⟩,
    ⟨"BytesRead", .other, .json (.num 3)⟩],
   .readFileOp 3⟩

/-- A write op: the `Data` payload field is ignored, its length is 5. -/
def sampleWriteOp : GoOp :=
  ⟨"WriteFileOp",
   [⟨"OpContext", .other, .opCtx sampleCtx⟩,
    ⟨"Inode", .other, .json (.num 2)⟩,
    ⟨"Offset", .other, .json (.num 0)⟩,
    ⟨"Data", .other, .json .null⟩],
   .writeFileOp 5⟩

/-- The handshake op: no `OpContext` field, only plain data. -/
def sampleInitOp : GoOp :=
  ⟨"initOp", [⟨"Flags", .other, .json (.num 8)⟩], .otherOp⟩

/-- A second lookup-style op with the same declared type name but different
instance data. -/
def sampleLookupOp2 : GoOp :=
  ⟨"LookUpInodeOp",
   [⟨"Parent", .other, .json (.num 9)⟩, ⟨"Name", .other, .json (.str "bar")⟩],
   .otherOp⟩

theorem sampleLookupOp_wellFormed : sampleLookupOp.wellFormed := by
  refine ⟨by decide, ?_, ?_⟩
  · intro bytesRead h
    exact absurd h (by simp [sampleLookupOp])
  · intro dataLen h
    exact absurd h (by simp [sampleLookupOp])

theorem sampleReadOp_wellFormed : sampleReadOp.wellFormed := by
  refine ⟨by decide, ?_, ?_⟩
  · intro bytesRead h
    have hb : bytesRead = 3 := by
      have : OpSpecific.readFileOp 3 = OpSpecific.readFileOp bytesRead := h
      cases this
      rfl
    subst hb
    exact ⟨⟨"BytesRead", .other, .json (.num 3)⟩, by simp [sampleReadOp], rfl, rfl, rfl⟩
  · intro dataLen h
    exact absurd h (by simp [sampleReadOp])

theorem sampleWriteOp_wellFormed : sampleWriteOp.wellFormed := by
  refine ⟨by decide, ?_, ?_⟩
  · intro bytesRead h
    exact absurd h (by simp [sampleWriteOp])
  · intro dataLen _
    decide

theorem sampleInitOp_wellFormed : sampleInitOp.wellFormed := by
  refine ⟨by decide, ?_, ?_⟩
  · intro bytesRead h
    exact absurd h (by simp [sampleInitOp])
  · intro dataLen h
    exact absurd h (by simp [sampleInitOp])

theorem sampleOptField_mem : sampleOptField ∈ sampleLookupOp.fields := by
  simp [sampleLookupOp]

/-! ### Claim theorems -/

/-- C2: for every call to `formatWireLogEntry` on a record whose status holds
its zero value (as every record from `NewWireLogRecord` does): a nil
completion error sets `Status` to 0; an error that is (or wraps) a
`syscall.Errno` sets `Status` to that code; a non-nil error carrying no such
code leaves `Status` at its zero value, the formatting path does not fail,
and the record is still emitted (the returned unit is the serialization of
the updated record). -/
theorem c2_status_resolution (op : GoOp) (opErr : Option GoError)
    (wlog : WireLogRecord) (now : Int) (h0 : wlog.Status = 0) :
    (opErr = none → (formatRecord op opErr wlog now).Status = 0) ∧
    (∀ e code, opErr = some e → e.asErrno = some code →
      (formatRecord op opErr wlog now).Status = code) ∧
    (∀ e, opErr = some e → e.asErrno = none →
      (formatRecord op opErr wlog now).Status = 0 ∧
      formatOutput op opErr wlog now =
        encodeRecord (formatRecord op opErr wlog now)) := by
  refine ⟨?_, ?_, ?_⟩
  · intro h
    subst h
    rfl
  · intro e code he hc
    subst he
    show resolveStatus (some e) wlog.Status = code
    simp [resolveStatus, hc]
  · intro e he hc
    subst he
    refine ⟨?_, rfl⟩
    show resolveStatus (some e) wlog.Status = 0
    simp [resolveStatus, hc, h0]

theorem c2_witness :
    (NewWireLogRecord 0).Status = 0 ∧
    ((some (GoError.errnoErr 2) = none →
        (formatRecord sampleLookupOp (some (GoError.errnoErr 2))
          (NewWireLogRecord 0) 10).Status = 0) ∧
     (∀ e code, some (GoError.errnoErr 2) = some e → e.asErrno = some code →
        (formatRecord sampleLookupOp (some (GoError.errnoErr 2))
          (NewWireLogRecord 0) 10).Status = code) ∧
     (∀ e, some (GoError.errnoErr 2) = some e → e.asErrno = none →
        (formatRecord sampleLookupOp (some (GoError.errnoErr 2))
          (NewWireLogRecord 0) 10).Status = 0 ∧
        formatOutput sampleLookupOp (some (GoError.errnoErr 2))
            (NewWireLogRecord 0) 10 =
          encodeRecord (formatRecord sampleLookupOp (some (GoError.errnoErr 2))
            (NewWireLogRecord 0) 10))) :=
  ⟨rfl, c2_status_resolution sampleLookupOp (some (GoError.errnoErr 2))
    (NewWireLogRecord 0) 10 rfl⟩

/-- C4: operation-specific augmentation: a read op's args carry `BytesRead`
equal to the typed view's `BytesRead` result; a write op's args carry `Size`
equal to `len(Data)`; the raw buffer fields `Data` and `Dst` never appear in
args; an op with no augmentation entry keeps exactly the generic pass's
args. -/
theorem c4_augmentation (op : GoOp) (opErr : Option GoError)
    (wlog : WireLogRecord) (now : Int) :
    (∀ bytesRead : Int, op.specific = .readFileOp bytesRead →
      alookup "BytesRead" (formatRecord op opErr wlog now).Args =
        some (.json (.num bytesRead))) ∧
    (∀ dataLen : Nat, op.specific = .writeFileOp dataLen →
      alookup "Size" (formatRecord op opErr wlog now).Args =
        some (.json (.num (dataLen : Int)))) ∧
    alookup "Data" (formatRecord op opErr wlog now).Args = none ∧
    alookup "Dst" (formatRecord op opErr wlog now).Args = none ∧
    (op.specific = .otherOp →
      (formatRecord op opErr wlog now).Args = extractArgs op.fields []) := by
  have hargs : (formatRecord op opErr wlog now).Args =
      applyAugment op.specific (extractArgs op.fields []) := rfl
  have hignored : ∀ k, k ∈ ignoredParams →
      alookup k (extractArgs op.fields []) = none := by
    intro k hk
    cases hv : alookup k (extractArgs op.fields []) with
    | none => rfl
    | some v =>
      rcases extractArgs_lookup_some _ _ _ _ hv with ⟨f, _, hname, hns, _⟩ | habs
      · exact absurd (Or.inr (Or.inr (hname ▸ hk))) hns
      · exact absurd habs (by simp [alookup])
  refine ⟨?_, ?_, ?_, ?_, ?_⟩
  · intro bytesRead h
    rw [hargs, h]
    exact alookup_argsInsert_self _ _ _
  · intro dataLen h
    rw [hargs, h]
    exact alookup_argsInsert_self _ _ _
  · rw [hargs]
    cases op.specific with
    | readFileOp bytesRead =>
      rw [applyAugment, alookup_argsInsert_ne _ _ _ _ (by decide)]
      exact hignored "Data" (by decide)
    | writeFileOp dataLen =>
      rw [applyAugment, alookup_argsInsert_ne _ _ _ _ (by decide)]
      exact hignored "Data" (by decide)
    | otherOp => exact hignored "Data" (by decide)
  · rw [hargs]
    cases op.specific with
    | readFileOp bytesRead =>
      rw [applyAugment, alookup_argsInsert_ne _ _ _ _ (by decide)]
      exact hignored "Dst" (by decide)
    | writeFileOp dataLen =>
      rw [applyAugment, alookup_argsInsert_ne _ _ _ _ (by decide)]
      exact hignored "Dst" (by decide)
    | otherOp => exact hignored "Dst" (by decide)
  · intro h
    rw [hargs, h]
    rfl

theorem c4_witness :
    alookup "BytesRead"
        (formatRecord sampleReadOp none (NewWireLogRecord 0) 10).Args =
      some (.json (.num 3)) ∧
    alookup "Size"
        (formatRecord sampleWriteOp none (NewWireLogRecord 0) 10).Args =
      some (.json (.num 5)) ∧
    alookup "Data" (formatRecord sampleWriteOp none (NewWireLogRecord 0) 10).Args =
      none ∧
    alookup "Dst" (formatRecord sampleReadOp none (NewWireLogRecord 0) 10).Args =
      none ∧
    (formatRecord sampleInitOp none (NewWireLogRecord 0) 10).Args =
      extractArgs sampleInitOp.fields [] :=
  ⟨(c4_augmentation sampleReadOp none (NewWireLogRecord 0) 10).1 3 rfl,
   (c4_augmentation sampleWriteOp none (NewWireLogRecord 0) 10).2.1 5 rfl,
   (c4_augmentation sampleWriteOp none (NewWireLogRecord 0) 10).2.2.1,
   (c4_augmentation sampleReadOp none (NewWireLogRecord 0) 10).2.2.2.1,
   (c4_augmentation sampleInitOp none (NewWireLogRecord 0) 10).2.2.2.2 rfl⟩

/-- C7: the record's operation name is the declared type name of the
operation value, so any two operation values of the same declared type
produce the same operation name, whatever their instance data, error,
record or clock. -/
theorem c7_operation_name (op : GoOp) (opErr : Option GoError)
    (wlog : WireLogRecord) (now : Int) :
    (formatRecord op opErr wlog now).Operation = op.typeName ∧
    (∀ (op' : GoOp) (opErr' : Option GoError) (wlog' : WireLogRecord)
       (now' : Int), op'.typeName = op.typeName →
      (formatRecord op' opErr' wlog' now').Operation =
        (formatRecord op opErr wlog now).Operation) := by
  refine ⟨rfl, ?_⟩
  intro op' opErr' wlog' now' h
  exact h

theorem c7_witness :
    (formatRecord sampleLookupOp none (NewWireLogRecord 0) 10).Operation =
      sampleLookupOp.typeName ∧
    (formatRecord sampleLookupOp2 (some (GoError.plain "boom"))
        (NewWireLogRecord 3) 8).Operation =
      (formatRecord sampleLookupOp none (NewWireLogRecord 0) 10).Operation :=
  ⟨(c7_operation_name sampleLookupOp none (NewWireLogRecord 0) 10).1,
   (c7_operation_name sampleLookupOp none (NewWireLogRecord 0) 10).2
     sampleLookupOp2 (some (GoError.plain "boom")) (NewWireLogRecord 3) 8 rfl⟩

/-- C8: with `now` the clock reading taken by `formatWireLogEntry` (no
earlier than the record's `StartTime`, the clock being monotone) and `tSer`
any later instant at which the returned unit is written out, the computed
`Duration` is `now - StartTime ≥ 0`, the `StartTime` is strictly before the
serialization instant, and the serialized unit is the completed record —
duration is computed before serialization, and only the finalized record is
serialized. -/
theorem c8_duration (op : GoOp) (opErr : Option GoError)
    (wlog : WireLogRecord) (now tSer : Int)
    (h1 : wlog.StartTime ≤ now) (h2 : now < tSer) :
    0 ≤ (formatRecord op opErr wlog now).Duration ∧
    (formatRecord op opErr wlog now).Duration = now - wlog.StartTime ∧
    (formatRecord op opErr wlog now).StartTime < tSer ∧
    formatOutput op opErr wlog now =
      encodeRecord (formatRecord op opErr wlog now) := by
  refine ⟨?_, rfl, ?_, rfl⟩
  · show 0 ≤ now - wlog.StartTime
    omega
  · show wlog.StartTime < tSer
    omega

theorem c8_witness :
    (NewWireLogRecord 4).StartTime ≤ 10 ∧ (10 : Int) < 11 ∧
    (0 ≤ (formatRecord sampleLookupOp none (NewWireLogRecord 4) 10).Duration ∧
     (formatRecord sampleLookupOp none (NewWireLogRecord 4) 10).Duration =
       10 - (NewWireLogRecord 4).StartTime ∧
     (formatRecord sampleLookupOp none (NewWireLogRecord 4) 10).StartTime < 11 ∧
     formatOutput sampleLookupOp none (NewWireLogRecord 4) 10 =
       encodeRecord (formatRecord sampleLookupOp none (NewWireLogRecord 4) 10)) :=
  ⟨by decide, by decide,
   c8_duration sampleLookupOp none (NewWireLogRecord 4) 10 11
     (by decide) (by decide)⟩

/-- C9: frame: `formatWireLogEntry` leaves the record's `StartTime` and
`Extra` (with whatever entries the filesystem implementation added) exactly
as they were, and the resulting `Args` is a freshly built map that does not
depend on the `Args` present before the call. -/
theorem c9_frame (op : GoOp) (opErr : Option GoError) (wlog : WireLogRecord)
    (now : Int) :
    (formatRecord op opErr wlog now).StartTime = wlog.StartTime ∧
    (formatRecord op opErr wlog now).Extra = wlog.Extra ∧
    (formatRecord op opErr wlog now).Args =
      applyAugment op.specific (extractArgs op.fields []) ∧
    (∀ prior : List (String × GoValue),
      (formatRecord op opErr { wlog with Args := prior } now).Args =
        (formatRecord op opErr wlog now).Args) :=
  ⟨rfl, rfl, rfl, fun _ => rfl⟩

/-- C10: status extraction unwraps: a completion error whose unwrap chain
reaches a `syscall.Errno` — even when the top-level error value is not
itself that `Errno` — sets the record's status to that code; a non-nil
error whose chain carries no code leaves the record's status exactly as it
was before the call. -/
theorem c10_status_unwrap (op : GoOp) (opErr : Option GoError)
    (wlog : WireLogRecord) (now : Int) :
    (∀ msg inner code, opErr = some (GoError.wrapped msg inner) →
      inner.asErrno = some code →
      (formatRecord op opErr wlog now).Status = code) ∧
    (∀ e, opErr = some e → e.asErrno = none →
      (formatRecord op opErr wlog now).Status = wlog.Status) := by
  constructor
  · intro msg inner code he hc
    subst he
    show resolveStatus (some (GoError.wrapped msg inner)) wlog.Status = code
    simp [resolveStatus, GoError.asErrno, hc]
  · intro e he hc
    subst he
    show resolveStatus (some e) wlog.Status = wlog.Status
    simp [resolveStatus, hc]

theorem c10_witness :
    (formatRecord sampleLookupOp
        (some (GoError.wrapped "lookup failed" (GoError.errnoErr 2)))
        (NewWireLogRecord 0) 10).Status = 2 ∧
    (formatRecord sampleLookupOp (some (GoError.plain "boom"))
        { NewWireLogRecord 0 with Status := 99 } 10).Status =
      ({ NewWireLogRecord 0 with Status := 99 } : WireLogRecord).Status :=
  ⟨(c10_status_unwrap sampleLookupOp
      (some (GoError.wrapped "lookup failed" (GoError.errnoErr 2)))
      (NewWireLogRecord 0) 10).1 "lookup failed" (GoError.errnoErr 2) 2 rfl rfl,
   (c10_status_unwrap sampleLookupOp (some (GoError.plain "boom"))
      { NewWireLogRecord 0 with Status := 99 } 10).2
     (GoError.plain "boom") rfl rfl⟩

/-- On a well-formed op, a skipped field's name is absent from the final
args map (the augmentation keys cannot collide with a skipped field). -/
theorem finalArgs_lookup_none_of_skipped (op : GoOp) (hwf : op.wellFormed)
    (f : GoField) (hf : f ∈ op.fields) (hs : FieldSkipped f) :
    alookup f.name (applyAugment op.specific (extractArgs op.fields [])) =
      none := by
  obtain ⟨hnodup, hread, hwrite⟩ := hwf
  have hgen0 : alookup f.name (extractArgs op.fields []) = none := by
    rw [extractArgs_lookup_of_mem op.fields [] f hf hnodup, if_pos hs]
    rfl
  cases hspec : op.specific with
  | readFileOp bytesRead =>
    obtain ⟨g, hgmem, hgname, hgkind, hgval⟩ := hread bytesRead hspec
    have hne : f.name ≠ "BytesRead" := by
      intro he
      have hfg : f = g :=
        name_unique_of_nodup hnodup hf hgmem (he.trans hgname.symm)
      subst hfg
      rcases hs with h | h | h
      · rw [hgkind] at h
        exact absurd h (by decide)
      · rw [hgkind] at h
        exact absurd h (by decide)
      · rw [he] at h
        exact absurd h (by decide)
    simp only [applyAugment]
    rw [alookup_argsInsert_ne _ _ _ _ hne, hgen0]
  | writeFileOp dataLen =>
    have hne : f.name ≠ "Size" := hwrite dataLen hspec f hf
    simp only [applyAugment]
    rw [alookup_argsInsert_ne _ _ _ _ hne, hgen0]
  | otherOp =>
    simp only [applyAugment]
    exact hgen0

/-- On a well-formed op, a kept field's name maps to exactly its value in
the final args map (the only colliding augmentation key, `BytesRead` on a
read op, rewrites it with the very same value). -/
theorem finalArgs_lookup_value_of_kept (op : GoOp) (hwf : op.wellFormed)
    (f : GoField) (hf : f ∈ op.fields) (hs : ¬ FieldSkipped f) :
    alookup f.name (applyAugment op.specific (extractArgs op.fields [])) =
      some f.value := by
  obtain ⟨hnodup, hread, hwrite⟩ := hwf
  have hgenv : alookup f.name (extractArgs op.fields []) = some f.value := by
    rw [extractArgs_lookup_of_mem op.fields [] f hf hnodup, if_neg hs]
  cases hspec : op.specific with
  | readFileOp bytesRead =>
    obtain ⟨g, hgmem, hgname, hgkind, hgval⟩ := hread bytesRead hspec
    by_cases he : f.name = "BytesRead"
    · have hfg : f = g :=
        name_unique_of_nodup hnodup hf hgmem (he.trans hgname.symm)
      subst hfg
      simp only [applyAugment]
      rw [hgval, he, alookup_argsInsert_self]
    · simp only [applyAugment]
      rw [alookup_argsInsert_ne _ _ _ _ he, hgenv]
  | writeFileOp dataLen =>
    have hne : f.name ≠ "Size" := hwrite dataLen hspec f hf
    simp only [applyAugment]
    rw [alookup_argsInsert_ne _ _ _ _ hne, hgenv]
  | otherOp =>
    simp only [applyAugment]
    exact hgenv

/-- C1: for every named field of a (well-formed) operation value: the field
is omitted from the record's args when it is a nil pointer, a function, or
its name is in the ignore set `{"OpContext", "Dst", "Data"}`; every other
field is included in args under its declared name with its current value. -/
theorem c1_field_filtering (op : GoOp) (opErr : Option GoError)
    (wlog : WireLogRecord) (now : Int) (hwf : op.wellFormed)
    (f : GoField) (hf : f ∈ op.fields) :
    (FieldSkipped f →
      alookup f.name (formatRecord op opErr wlog now).Args = none) ∧
    (¬ FieldSkipped f →
      alookup f.name (formatRecord op opErr wlog now).Args = some f.value) :=
  ⟨fun hs => finalArgs_lookup_none_of_skipped op hwf f hf hs,
   fun hs => finalArgs_lookup_value_of_kept op hwf f hf hs⟩

theorem c1_witness :
    sampleLookupOp.wellFormed ∧ sampleOptField ∈ sampleLookupOp.fields ∧
    ((FieldSkipped sampleOptField →
       alookup sampleOptField.name
         (formatRecord sampleLookupOp none (NewWireLogRecord 0) 10).Args =
         none) ∧
     (¬ FieldSkipped sampleOptField →
       alookup sampleOptField.name
         (formatRecord sampleLookupOp none (NewWireLogRecord 0) 10).Args =
         some sampleOptField.value)) :=
  ⟨sampleLookupOp_wellFormed, sampleOptField_mem,
   c1_field_filtering sampleLookupOp none (NewWireLogRecord 0) 10
     sampleLookupOp_wellFormed sampleOptField sampleOptField_mem⟩

/-- C3: every key present in the record's args either names a field that was
set (not a nil pointer) on the completed (well-formed) operation value, or
is one of the derived augmentation keys (`BytesRead` on a read op, `Size` on
a write op); and no unset pointer field ever appears in args (absent, not
null). -/
theorem c3_args_origin (op : GoOp) (opErr : Option GoError)
    (wlog : WireLogRecord) (now : Int) (hwf : op.wellFormed) :
    (∀ k v, alookup k (formatRecord op opErr wlog now).Args = some v →
      (∃ f ∈ op.fields, f.name = k ∧ isNilPtr f.kind = false) ∨
      (k = "BytesRead" ∧ ∃ bytesRead, op.specific = .readFileOp bytesRead) ∨
      (k = "Size" ∧ ∃ dataLen, op.specific = .writeFileOp dataLen)) ∧
    (∀ f ∈ op.fields, isNilPtr f.kind = true →
      alookup f.name (formatRecord op opErr wlog now).Args = none) := by
  constructor
  · intro k v hkv
    have hkv' : alookup k (applyAugment op.specific (extractArgs op.fields [])) =
        some v := hkv
    have hfromGen : alookup k (extractArgs op.fields []) = some v →
        ∃ f ∈ op.fields, f.name = k ∧ isNilPtr f.kind = false := by
      intro hga
      rcases extractArgs_lookup_some _ _ _ _ hga with ⟨f, hfm, hname, hns, _⟩ | habs
      · exact ⟨f, hfm, hname,
          Bool.eq_false_iff.mpr (fun hb => hns (Or.inl hb))⟩
      · exact absurd habs (by simp [alookup])
    cases hspec : op.specific with
    | readFileOp bytesRead =>
      rw [hspec] at hkv'
      simp only [applyAugment] at hkv'
      rcases alookup_argsInsert_cases _ _ _ _ _ hkv' with ⟨hk, _⟩ | ⟨_, hga⟩
      · exact Or.inr (Or.inl ⟨hk, bytesRead, rfl⟩)
      · exact Or.inl (hfromGen hga)
    | writeFileOp dataLen =>
      rw [hspec] at hkv'
      simp only [applyAugment] at hkv'
      rcases alookup_argsInsert_cases _ _ _ _ _ hkv' with ⟨hk, _⟩ | ⟨_, hga⟩
      · exact Or.inr (Or.inr ⟨hk, dataLen, rfl⟩)
      · exact Or.inl (hfromGen hga)
    | otherOp =>
      rw [hspec] at hkv'
      simp only [applyAugment] at hkv'
      exact Or.inl (hfromGen hkv')
  · intro f hf hnil
    exact finalArgs_lookup_none_of_skipped op hwf f hf (Or.inl hnil)

theorem c3_witness :
    sampleReadOp.wellFormed ∧
    ((∀ k v,
        alookup k (formatRecord sampleReadOp none (NewWireLogRecord 0) 10).Args =
          some v →
        (∃ f ∈ sampleReadOp.fields, f.name = k ∧ isNilPtr f.kind = false) ∨
        (k = "BytesRead" ∧
          ∃ bytesRead, sampleReadOp.specific = .readFileOp bytesRead) ∨
        (k = "Size" ∧
          ∃ dataLen, sampleReadOp.specific = .writeFileOp dataLen)) ∧
     (∀ f ∈ sampleReadOp.fields, isNilPtr f.kind = true →
        alookup f.name
          (formatRecord sampleReadOp none (NewWireLogRecord 0) 10).Args =
          none)) :=
  ⟨sampleReadOp_wellFormed,
   c3_args_origin sampleReadOp none (NewWireLogRecord 0) 10
     sampleReadOp_wellFormed⟩

/-- C5: on a record whose context is still unset (as from
`NewWireLogRecord`): the record's context is populated — equal to the
operation's context block — exactly when the (well-formed) operation value
has an `OpContext` field of the context-block type; operation values
without such a field (notably the init op) leave context absent. -/
theorem c5_context_extraction (op : GoOp) (opErr : Option GoError)
    (wlog : WireLogRecord) (now : Int) (hwf : op.wellFormed)
    (h0 : wlog.Context = none) :
    (∀ f ∈ op.fields, ∀ c : OpContext, f.name = "OpContext" →
      f.value = .opCtx c →
      (formatRecord op opErr wlog now).Context = some c) ∧
    ((∀ f ∈ op.fields, f.name = "OpContext" → ∀ c, f.value ≠ .opCtx c) →
      (formatRecord op opErr wlog now).Context = none) := by
  obtain ⟨hnodup, -, -⟩ := hwf
  have hctx : (formatRecord op opErr wlog now).Context =
      extractContext op wlog.Context := rfl
  constructor
  · intro f hf c hname hval
    rw [hctx]
    exact extractContext_of_mem op wlog.Context hnodup f hf hname c hval
  · intro h
    rw [hctx, extractContext_of_absent op wlog.Context h, h0]

theorem c5_witness :
    sampleLookupOp.wellFormed ∧ (NewWireLogRecord 0).Context = none ∧
    (formatRecord sampleLookupOp none (NewWireLogRecord 0) 10).Context =
      some sampleCtx ∧
    sampleInitOp.wellFormed ∧
    (formatRecord sampleInitOp none (NewWireLogRecord 0) 10).Context = none :=
  ⟨sampleLookupOp_wellFormed, rfl,
   (c5_context_extraction sampleLookupOp none (NewWireLogRecord 0) 10
      sampleLookupOp_wellFormed rfl).1
     ⟨"OpContext", .other, .opCtx sampleCtx⟩ (by simp [sampleLookupOp])
     sampleCtx rfl rfl,
   sampleInitOp_wellFormed,
   (c5_context_extraction sampleInitOp none (NewWireLogRecord 0) 10
      sampleInitOp_wellFormed rfl).2
     (by
       intro f hf hname
       simp only [sampleInitOp, List.mem_singleton] at hf
       subst hf
       exact absurd hname (by decide))⟩

/-- C6: round-trip: for every operation value whose field values are
JSON-representable, serializing with `formatWireLogEntry` and decoding the
produced unit yields a record with the same operation name, the same
status, and the same args map (hence the same set of keys, each mapped to
an equal value). -/
theorem c6_round_trip (op : GoOp) (opErr : Option GoError)
    (wlog : WireLogRecord) (now : Int)
    (hdata : ∀ f ∈ op.fields, f.value.isData = true) :
    ∃ r', decodeRecord (formatOutput op opErr wlog now) = some r' ∧
      r'.Operation = (formatRecord op opErr wlog now).Operation ∧
      r'.Status = (formatRecord op opErr wlog now).Status ∧
      r'.Args = (formatRecord op opErr wlog now).Args ∧
      ∀ k, alookup k r'.Args =
        alookup k (formatRecord op opErr wlog now).Args := by
  have hall : ∀ p ∈ (formatRecord op opErr wlog now).Args,
      (p.2).isData = true := by
    have h1 : ∀ p ∈ extractArgs op.fields [], (p.2 : GoValue).isData = true :=
      extractArgs_forall (fun v => v.isData = true) op.fields []
        (by intro p hp; cases hp) hdata
    exact applyAugment_forall (fun v => v.isData = true) op.specific _ h1
      (fun n => rfl)
  have hdec := decodeRecord_encodeRecord (formatRecord op opErr wlog now)
  have hmap := decodeArgs_encodeArgs_of_data _ hall
  refine ⟨_, hdec, rfl, rfl, hmap, ?_⟩
  intro k
  exact congrArg (alookup k) hmap

theorem c6_witness :
    (∀ f ∈ sampleInitOp.fields, f.value.isData = true) ∧
    (∃ r', decodeRecord (formatOutput sampleInitOp none (NewWireLogRecord 0) 10) =
        some r' ∧
      r'.Operation =
        (formatRecord sampleInitOp none (NewWireLogRecord 0) 10).Operation ∧
      r'.Status =
        (formatRecord sampleInitOp none (NewWireLogRecord 0) 10).Status ∧
      r'.Args = (formatRecord sampleInitOp none (NewWireLogRecord 0) 10).Args ∧
      ∀ k, alookup k r'.Args =
        alookup k (formatRecord sampleInitOp none (NewWireLogRecord 0) 10).Args) :=
  ⟨by decide, c6_round_trip sampleInitOp none (NewWireLogRecord 0) 10 (by decide)⟩
